import Mathlib

/-!
# Verification of `node/cli/src/factory_impl.rs`

A shallow embedding of the transaction-factory `RuntimeAdapter` implementation:
synthetic transaction construction and signing for a load-generation harness.

The file under `src/` supplies the logic (`sign`, `transfer_extrinsic`,
`timestamp_inherent`, the seed-based key derivation and the stub query points).
Its collaborators — the sr25519 signature scheme, the `rand` generator, the
`blake2_256` hash, the well-known keyring identity, the `Era` type and the
canonical binary codec — are not under `src/`; they are either taken as
parameters (crypto, rng, hash, keyring) or modelled from the spec (the era
type and the canonical codec), as marked in the doc comments below.
-/

/-- Raw bytes: each entry is a byte value in `[0, 256)` as produced by the
encoders below. -/
abbrev Bytes := List Nat

/-- `node_primitives::AccountId`: the raw 32 public-key bytes of an sr25519
key. -/
abbrev AccountId := Bytes

/-- `node_primitives::Hash`: a block hash. It is only ever fed into the
signing payload, never decoded, so its width is unconstrained here. -/
abbrev Hash := Bytes

/-- Modelled from the spec: an sr25519 keypair (`primitives::sr25519::Pair`,
not under `src/`) — "private key material + matching public key". -/
structure Pair where
  public : AccountId
  secret : Bytes
deriving DecidableEq, Repr

/-- Modelled from the spec: the external sr25519 scheme
(`primitives::sr25519` / `primitives::crypto::Pair`, not under `src/`),
taken as an abstract deterministic implementation: `from_seed` is
`Pair::from_seed` ("generation from any 32-byte value always succeeds",
public keys are 32 bytes) and `sign` is `Pair::sign` (sr25519 signatures
are 64 bytes). -/
structure Sr25519 where
  from_seed : Bytes → Pair
  sign : Pair → Bytes → Bytes
  from_seed_public_len : ∀ s, (from_seed s).public.length = 32
  sign_len : ∀ k b, (sign k b).length = 64

/-- `indices::address::Address`, restricted to the `Id` variant — the only
one this module constructs. -/
inductive Address where
  | id (account : AccountId)
deriving DecidableEq, Repr

/-- Modelled from the spec: `sr_primitives::generic::Era` (not under `src/`).
"Era / mortality window: the range of block numbers during which a
transaction is valid, encoded as (period, phase) relative to a reference
block"; `Era.mortal period current` records the window length and the
anchoring phase argument. -/
inductive Era where
  | immortal
  | mortal (period : Nat) (current : Nat)
deriving DecidableEq, Repr

/-- Modelled from the spec: the runtime call enum (`node_runtime::Call`, not
under `src/`), restricted to the two calls this module constructs — a
transfer-of-value (`Call::Balances(BalancesCall::transfer(dest, amount))`)
and a timestamp update (`Call::Timestamp(timestamp::Call::set(ts))`). -/
inductive Call where
  | balances_transfer (dest : Address) (amount : Nat)
  | timestamp_set (ts : Nat)
deriving DecidableEq, Repr

/-- `node_runtime::CheckedExtrinsic`: the logical transaction intent — an
optional signed origin `(account, index)` and the call. -/
structure CheckedExtrinsic where
  signed : Option (AccountId × Nat)
  function : Call
deriving DecidableEq, Repr

/-- `node_runtime::UncheckedExtrinsic`: the wire object — an optional
`(address, signature bytes, index, era)` tuple and the call. -/
structure UncheckedExtrinsic where
  signature : Option (Address × Bytes × Nat × Era)
  function : Call
deriving DecidableEq, Repr

/-! ## The canonical codec

Modelled from the spec: the canonical binary codec (`parity_codec` and the
derived `Encode`/`Decode` instances, not under `src/`). The spec fixes only
its interface properties — a deterministic byte encoding used "identically
for both the encode-to-sign step and the final encode/decode self-check" —
so we model it as a tagged, fixed-width, little-endian encoding with a
structurally matching decoder. -/

/-- Fixed-width little-endian encoding of an unsigned machine integer:
`w` bytes, least significant first. -/
def encodeFixedLE : Nat → Nat → Bytes
  | 0, _ => []
  | w + 1, n => n % 256 :: encodeFixedLE w (n / 256)

/-- Reads back a `w`-byte little-endian unsigned integer. -/
def decodeFixedLE : Nat → Bytes → Option (Nat × Bytes)
  | 0, bs => some (0, bs)
  | _ + 1, [] => none
  | w + 1, b :: bs => (decodeFixedLE w bs).map (fun p => (b + 256 * p.1, p.2))

/-- Reads exactly `n` raw bytes. -/
def readBytes : Nat → Bytes → Option (Bytes × Bytes)
  | 0, bs => some ([], bs)
  | _ + 1, [] => none
  | n + 1, b :: bs => (readBytes n bs).map (fun p => (b :: p.1, p.2))

/-- Encoding of an `Address`: the `Id` variant is a tag byte followed by the
32 account-id bytes. -/
def encodeAddress : Address → Bytes
  | .id a => 255 :: a

def decodeAddress : Bytes → Option (Address × Bytes)
  | 255 :: bs => (readBytes 32 bs).map (fun p => (Address.id p.1, p.2))
  | _ => none

/-- Encoding of an `Era`: a tag byte, then for the mortal case the period and
the phase, each as a u64. -/
def encodeEra : Era → Bytes
  | .immortal => [0]
  | .mortal period current => 1 :: (encodeFixedLE 8 period ++ encodeFixedLE 8 current)

def decodeEra : Bytes → Option (Era × Bytes)
  | 0 :: bs => some (Era.immortal, bs)
  | 1 :: bs =>
    (decodeFixedLE 8 bs).bind (fun p =>
      (decodeFixedLE 8 p.2).map (fun q => (Era.mortal p.1 q.1, q.2)))
  | _ => none

/-- Encoding of a `Call`: a variant tag, then the arguments — the destination
address and a u128 amount for a transfer, a u64 moment for a timestamp. -/
def encodeCall : Call → Bytes
  | .balances_transfer dest amount => 0 :: (encodeAddress dest ++ encodeFixedLE 16 amount)
  | .timestamp_set ts => 1 :: encodeFixedLE 8 ts

def decodeCall : Bytes → Option (Call × Bytes)
  | 0 :: bs =>
    (decodeAddress bs).bind (fun p =>
      (decodeFixedLE 16 p.2).map (fun q => (Call.balances_transfer p.1 q.1, q.2)))
  | 1 :: bs => (decodeFixedLE 8 bs).map (fun p => (Call.timestamp_set p.1, p.2))
  | _ => none

/-- Encoding of an `UncheckedExtrinsic`: a signed/unsigned tag byte; in the
signed case the origin address, the 64 signature bytes, the u64 index and
the era, then the call. -/
def encodeUnchecked : UncheckedExtrinsic → Bytes
  | ⟨none, f⟩ => 0 :: encodeCall f
  | ⟨some (addr, sig, index, era), f⟩ =>
    1 :: (encodeAddress addr ++ sig ++ encodeFixedLE 8 index ++ encodeEra era ++ encodeCall f)

def decodeUnchecked (bs : Bytes) : Option UncheckedExtrinsic :=
  match bs with
  | 0 :: bs => (decodeCall bs).map (fun p => ⟨none, p.1⟩)
  | 1 :: bs =>
    (decodeAddress bs).bind (fun p =>
      (readBytes 64 p.2).bind (fun s =>
        (decodeFixedLE 8 s.2).bind (fun i =>
          (decodeEra i.2).bind (fun e =>
            (decodeCall e.2).map (fun f => ⟨some (p.1, s.1, i.1, e.1), f.1⟩)))))
  | _ => none

/-- Modelled from the spec: the canonical encoding of the signing payload
tuple `(nonce, call, era, prior_block_hash)` (built by `using_encoded` on
the tuple in `sign`; tuple `Encode` is not under `src/`): the concatenation
of the four component encodings in order. -/
def encodePayload (index : Nat) (function : Call) (era : Era)
    (prior_block_hash : Hash) : Bytes :=
  encodeFixedLE 8 index ++ encodeCall function ++ encodeEra era ++ prior_block_hash

/-! ## Machine-width side conditions

The Rust types bound every field: indices, moments and phases are `u64`,
balances are `u128`, account ids are 32 bytes, signatures 64 bytes. The
embedding uses `Nat` and byte lists, so these bounds appear as explicit
wellformedness hypotheses. -/

def Address.wf : Address → Prop
  | .id a => a.length = 32

def Call.wf : Call → Prop
  | .balances_transfer dest amount => dest.wf ∧ amount < 2 ^ 128
  | .timestamp_set ts => ts < 2 ^ 64

def Era.wf : Era → Prop
  | .immortal => True
  | .mortal period current => period < 2 ^ 64 ∧ current < 2 ^ 64

def UncheckedExtrinsic.wf (u : UncheckedExtrinsic) : Prop :=
  match u.signature with
  | none => u.function.wf
  | some (addr, sig, index, era) =>
    addr.wf ∧ sig.length = 64 ∧ index < 2 ^ 64 ∧ era.wf ∧ u.function.wf

def CheckedExtrinsic.wf (xt : CheckedExtrinsic) : Prop :=
  (match xt.signed with
   | none => True
   | some (account, index) => account.length = 32 ∧ index < 2 ^ 64) ∧ xt.function.wf

/-! ## The factory implementation (from `src/node/cli/src/factory_impl.rs`) -/

/-- The closure passed to `using_encoded` in `sign`, with the key
application factored out: the bytes actually signed are the raw encoded
payload when it is at most 256 bytes, and its 256-bit blake2 hash
(`sr_io::blake2_256`, supplied as the `blake2_256` parameter) when it is
longer. -/
def signingInput (blake2_256 : Bytes → Bytes) (b : Bytes) : Bytes :=
  if b.length > 256 then blake2_256 b else b

/-- The `let s = match xt.signed { ... }` step of `sign`: assembles the
wire object before the encode/decode self-check. -/
def assemble (sr : Sr25519) (blake2_256 : Bytes → Bytes) (xt : CheckedExtrinsic)
    (key : Pair) (prior_block_hash : Hash) (phase : Nat) : UncheckedExtrinsic :=
  match xt.signed with
  | some (signed, index) =>
    let era := Era.mortal 256 phase
    let b := encodePayload index xt.function era prior_block_hash
    let signature := sr.sign key (signingInput blake2_256 b)
    { signature := some (Address.id signed, signature, index, era),
      function := xt.function }
  | none => { signature := none, function := xt.function }

/-- `sign` from `factory_impl.rs`: assemble the wire object, then run the
encode/decode self-check and return the decoded value. The Rust code
panics (`expect`) when the decode fails; here that branch is `none`. -/
def sign (sr : Sr25519) (blake2_256 : Bytes → Bytes) (xt : CheckedExtrinsic)
    (key : Pair) (prior_block_hash : Hash) (phase : Nat) : Option UncheckedExtrinsic :=
  decodeUnchecked (encodeUnchecked (assemble sr blake2_256 xt key prior_block_hash phase))

/-- `transfer_extrinsic`: a `CheckedExtrinsic` with signed origin
`(sender, index)` and a transfer call of `amount` to `destination`, passed
through `sign`. -/
def transfer_extrinsic (sr : Sr25519) (blake2_256 : Bytes → Bytes)
    (sender : AccountId) (key : Pair) (destination : AccountId) (amount : Nat)
    (index : Nat) (phase : Nat) (prior_block_hash : Hash) : Option UncheckedExtrinsic :=
  sign sr blake2_256
    { signed := some (sender, index),
      function := Call.balances_transfer (Address.id destination) amount }
    key prior_block_hash phase

/-- `timestamp_inherent`: a `CheckedExtrinsic` with no origin and a
timestamp-set call, passed through `sign`. -/
def timestamp_inherent (sr : Sr25519) (blake2_256 : Bytes → Bytes)
    (ts : Nat) (key : Pair) (phase : Nat) (prior_block_hash : Hash) :
    Option UncheckedExtrinsic :=
  sign sr blake2_256 { signed := none, function := Call.timestamp_set ts }
    key prior_block_hash phase

/-- `minimum_balance`: stub constant. -/
def minimum_balance : Nat := 1337

/-- `minimum_period`: stub constant. -/
def minimum_period : Nat := 99

/-- `master_account_id`: `Keyring::Alice.pair().public()`. The well-known
Alice pair (`keyring` crate, not under `src/`) is the parameter. -/
def master_account_id (alice_pair : Pair) : AccountId :=
  alice_pair.public

/-- `master_account_secret`: `Keyring::Alice.pair()`. -/
def master_account_secret (alice_pair : Pair) : Pair :=
  alice_pair

/-- `extract_index`: stub, returns `0.as_()` for every account and hash. -/
def extract_index (_account_id : AccountId) (_block_hash : Hash) : Nat := 0

/-- `extract_phase`: stub, returns `0.as_()` for every hash. -/
def extract_phase (_block_hash : Hash) : Nat := 0

/-- `gen_seed_bytes`: seed a `StdRng` from the u64 seed, then fill a 32-byte
array one `rng.gen::<u8>()` draw at a time. The external `rand` generator
(not an `src/` concern) is abstract: `seed_from_u64` builds the generator
state from the seed and `genU8` draws one byte, returning the next state. -/
def gen_seed_bytes {σ : Type} (seed_from_u64 : Nat → σ) (genU8 : σ → Nat × σ)
    (seed : Nat) : Bytes :=
  ((List.range 32).foldl
    (fun acc i => (acc.1.set i (genU8 acc.2).1, (genU8 acc.2).2))
    (List.replicate 32 0, seed_from_u64 seed)).1

/-- `gen_random_account_id`: `Pair::from_seed(gen_seed_bytes(seed)).public()`. -/
def gen_random_account_id {σ : Type} (sr : Sr25519) (seed_from_u64 : Nat → σ)
    (genU8 : σ → Nat × σ) (seed : Nat) : AccountId :=
  (sr.from_seed (gen_seed_bytes seed_from_u64 genU8 seed)).public

/-- `gen_random_account_secret`: `Pair::from_seed(gen_seed_bytes(seed))`. -/
def gen_random_account_secret {σ : Type} (sr : Sr25519) (seed_from_u64 : Nat → σ)
    (genU8 : σ → Nat × σ) (seed : Nat) : Pair :=
  sr.from_seed (gen_seed_bytes seed_from_u64 genU8 seed)

/-! ## Codec roundtrip lemmas -/

theorem decodeFixedLE_encodeFixedLE (w : Nat) (n : Nat) (r : Bytes) :
    decodeFixedLE w (encodeFixedLE w n ++ r) = some (n % 256 ^ w, r) := by
  induction w generalizing n with
  | zero => simp [encodeFixedLE, decodeFixedLE, Nat.mod_one]
  | succ w ih =>
    have hsplit : n % 256 ^ (w + 1) = n % 256 + 256 * (n / 256 % 256 ^ w) := by
      rw [pow_succ, mul_comm (256 ^ w) 256, Nat.mod_mul]
    simp [encodeFixedLE, decodeFixedLE, ih, hsplit]

theorem decodeFixedLE_encodeFixedLE_of_lt (w : Nat) (n : Nat) (r : Bytes)
    (h : n < 256 ^ w) :
    decodeFixedLE w (encodeFixedLE w n ++ r) = some (n, r) := by
  rw [decodeFixedLE_encodeFixedLE, Nat.mod_eq_of_lt h]

theorem readBytes_append (xs r : Bytes) :
    readBytes xs.length (xs ++ r) = some (xs, r) := by
  induction xs with
  | nil => simp [readBytes]
  | cons b bs ih => simp [readBytes, ih]

theorem readBytes_append_of_len (n : Nat) (xs r : Bytes) (h : xs.length = n) :
    readBytes n (xs ++ r) = some (xs, r) := by
  subst h; exact readBytes_append xs r

theorem decodeAddress_encodeAddress (a : Address) (h : a.wf) (r : Bytes) :
    decodeAddress (encodeAddress a ++ r) = some (a, r) := by
  cases a with
  | id account =>
    simp only [Address.wf] at h
    simp [encodeAddress, decodeAddress, readBytes_append_of_len 32 account r h]

theorem decodeEra_encodeEra (e : Era) (h : e.wf) (r : Bytes) :
    decodeEra (encodeEra e ++ r) = some (e, r) := by
  cases e with
  | immortal => simp [encodeEra, decodeEra]
  | mortal period current =>
    obtain ⟨hp, hc⟩ := h
    have h64 : (256 : Nat) ^ 8 = 2 ^ 64 := by norm_num
    simp [encodeEra, decodeEra, List.append_assoc,
      decodeFixedLE_encodeFixedLE_of_lt 8 period _ (h64 ▸ hp),
      decodeFixedLE_encodeFixedLE_of_lt 8 current _ (h64 ▸ hc)]

theorem decodeCall_encodeCall (f : Call) (h : f.wf) (r : Bytes) :
    decodeCall (encodeCall f ++ r) = some (f, r) := by
  cases f with
  | balances_transfer dest amount =>
    obtain ⟨hd, ha⟩ := h
    have h128 : (256 : Nat) ^ 16 = 2 ^ 128 := by norm_num
    simp [encodeCall, decodeCall, List.append_assoc,
      decodeAddress_encodeAddress dest hd,
      decodeFixedLE_encodeFixedLE_of_lt 16 amount r (h128 ▸ ha)]
  | timestamp_set ts =>
    have h64 : (256 : Nat) ^ 8 = 2 ^ 64 := by norm_num
    simp [encodeCall, decodeCall,
      decodeFixedLE_encodeFixedLE_of_lt 8 ts r (h64 ▸ h)]

theorem decodeUnchecked_encodeUnchecked (u : UncheckedExtrinsic) (h : u.wf) :
    decodeUnchecked (encodeUnchecked u) = some u := by
  obtain ⟨sig, f⟩ := u
  cases sig with
  | none =>
    simp only [UncheckedExtrinsic.wf] at h
    have := decodeCall_encodeCall f h []
    simp only [List.append_nil] at this
    simp [encodeUnchecked, decodeUnchecked, this]
  | some s =>
    obtain ⟨addr, sigBytes, index, era⟩ := s
    obtain ⟨haddr, hsig, hindex, hera, hf⟩ := h
    have h64 : (256 : Nat) ^ 8 = 2 ^ 64 := by norm_num
    have hcall := decodeCall_encodeCall f hf []
    simp only [List.append_nil] at hcall
    simp [encodeUnchecked, decodeUnchecked, List.append_assoc,
      decodeAddress_encodeAddress addr haddr,
      readBytes_append_of_len 64 sigBytes _ hsig,
      decodeFixedLE_encodeFixedLE_of_lt 8 index _ (h64 ▸ hindex),
      decodeEra_encodeEra era hera, hcall]

/-! ## Behaviour of `assemble` and `sign` -/

theorem assemble_signed (sr : Sr25519) (blake2_256 : Bytes → Bytes)
    (account : AccountId) (index : Nat) (f : Call) (key : Pair) (h : Hash)
    (phase : Nat) :
    assemble sr blake2_256 ⟨some (account, index), f⟩ key h phase =
      ⟨some (Address.id account,
        sr.sign key (signingInput blake2_256
          (encodePayload index f (Era.mortal 256 phase) h)),
        index, Era.mortal 256 phase), f⟩ := rfl

theorem assemble_unsigned (sr : Sr25519) (blake2_256 : Bytes → Bytes)
    (f : Call) (key : Pair) (h : Hash) (phase : Nat) :
    assemble sr blake2_256 ⟨none, f⟩ key h phase = ⟨none, f⟩ := rfl

theorem assemble_wf (sr : Sr25519) (blake2_256 : Bytes → Bytes)
    (xt : CheckedExtrinsic) (key : Pair) (h : Hash) (phase : Nat)
    (hxt : xt.wf) (hph : phase < 2 ^ 64) :
    (assemble sr blake2_256 xt key h phase).wf := by
  obtain ⟨signed, f⟩ := xt
  obtain ⟨hsigned, hf⟩ := hxt
  cases signed with
  | none => exact hf
  | some p =>
    obtain ⟨account, index⟩ := p
    obtain ⟨ha, hi⟩ := hsigned
    exact ⟨ha, sr.sign_len key _, hi, ⟨by norm_num, hph⟩, hf⟩

theorem sign_signed_eq (sr : Sr25519) (blake2_256 : Bytes → Bytes)
    (account : AccountId) (index : Nat) (f : Call) (key : Pair) (h : Hash)
    (phase : Nat) (ha : account.length = 32) (hi : index < 2 ^ 64)
    (hph : phase < 2 ^ 64) (hf : f.wf) :
    sign sr blake2_256 ⟨some (account, index), f⟩ key h phase =
      some ⟨some (Address.id account,
        sr.sign key (signingInput blake2_256
          (encodePayload index f (Era.mortal 256 phase) h)),
        index, Era.mortal 256 phase), f⟩ := by
  rw [sign, assemble_signed]
  exact decodeUnchecked_encodeUnchecked _
    ⟨ha, sr.sign_len key _, hi, ⟨by norm_num, hph⟩, hf⟩

theorem sign_unsigned_eq (sr : Sr25519) (blake2_256 : Bytes → Bytes)
    (f : Call) (key : Pair) (h : Hash) (phase : Nat) (hf : f.wf) :
    sign sr blake2_256 ⟨none, f⟩ key h phase = some ⟨none, f⟩ := by
  rw [sign, assemble_unsigned]
  exact decodeUnchecked_encodeUnchecked _ hf

/-! ## Concrete instances used to exercise the theorems on closed inputs -/

/-- A concrete stand-in for the sr25519 scheme: constant keys and
signatures of the right widths. -/
def constSr : Sr25519 where
  from_seed := fun s => ⟨List.replicate 32 0, s⟩
  sign := fun _ _ => List.replicate 64 1
  from_seed_public_len := fun _ => by simp
  sign_len := fun _ _ => by simp

/-- A concrete stand-in for `blake2_256`: a constant 32-byte digest. -/
def constBlake (_b : Bytes) : Bytes := List.replicate 32 2

def cAccount : AccountId := List.replicate 32 3

def cDest : AccountId := List.replicate 32 7

def cKey : Pair := ⟨List.replicate 32 4, List.replicate 32 5⟩

def cHash : Hash := List.replicate 32 6

/-! ## The claims -/

/-- Claim C1: in `sign`, a signed-origin extrinsic is signed over the raw
encoded payload when that encoding is at most 256 bytes and over its
256-bit blake2 hash when it is longer; in particular a 256-byte encoding is
raw-signed and a 257-byte one is hash-then-signed. -/
theorem sign_large_payload_rule (sr : Sr25519) (blake2_256 : Bytes → Bytes)
    (account : AccountId) (index : Nat) (f : Call) (key : Pair) (h : Hash)
    (phase : Nat) (ha : account.length = 32) (hi : index < 2 ^ 64)
    (hph : phase < 2 ^ 64) (hf : f.wf) :
    sign sr blake2_256 ⟨some (account, index), f⟩ key h phase =
      some ⟨some (Address.id account,
        sr.sign key (signingInput blake2_256
          (encodePayload index f (Era.mortal 256 phase) h)),
        index, Era.mortal 256 phase), f⟩
    ∧ (∀ b : Bytes, b.length ≤ 256 → signingInput blake2_256 b = b)
    ∧ (∀ b : Bytes, 256 < b.length → signingInput blake2_256 b = blake2_256 b) := by
  refine ⟨sign_signed_eq sr blake2_256 account index f key h phase ha hi hph hf, ?_, ?_⟩
  · intro b hb
    simp only [signingInput, gt_iff_lt, if_neg (by omega : ¬ 256 < b.length)]
  · intro b hb
    simp only [signingInput, gt_iff_lt, if_pos hb]

theorem sign_large_payload_rule_witness :
    (sign constSr constBlake ⟨some (cAccount, 5), Call.timestamp_set 7⟩ cKey cHash 9 =
      some ⟨some (Address.id cAccount,
        constSr.sign cKey (signingInput constBlake
          (encodePayload 5 (Call.timestamp_set 7) (Era.mortal 256 9) cHash)),
        5, Era.mortal 256 9), Call.timestamp_set 7⟩)
    ∧ signingInput constBlake (List.replicate 256 0) = List.replicate 256 0
    ∧ signingInput constBlake (List.replicate 257 0)
        = constBlake (List.replicate 257 0) := by
  obtain ⟨h1, h2, h3⟩ := sign_large_payload_rule constSr constBlake cAccount 5
    (Call.timestamp_set 7) cKey cHash 9 (by simp [cAccount]) (by norm_num)
    (by norm_num) (by norm_num [Call.wf])
  exact ⟨h1, h2 _ (Nat.le_of_eq (List.length_replicate 256 0)),
    h3 _ (Nat.lt_of_lt_of_eq (by norm_num) (List.length_replicate 257 0).symm)⟩

/-- Claim C2: for a signed-origin extrinsic, the era placed in the result is
the mortal era of fixed period 256 anchored at the supplied phase, the
signing payload is the ordered tuple `(nonce, call, era, prior_block_hash)`,
and two calls sharing a phase — here with otherwise unrelated arguments —
produce identical eras. -/
theorem sign_era_rule (sr : Sr25519) (blake2_256 : Bytes → Bytes)
    (a₁ a₂ : AccountId) (i₁ i₂ : Nat) (f₁ f₂ : Call) (k₁ k₂ : Pair)
    (h₁ h₂ : Hash) (phase : Nat)
    (ha₁ : a₁.length = 32) (hi₁ : i₁ < 2 ^ 64) (hf₁ : f₁.wf)
    (ha₂ : a₂.length = 32) (hi₂ : i₂ < 2 ^ 64) (hf₂ : f₂.wf)
    (hph : phase < 2 ^ 64) :
    sign sr blake2_256 ⟨some (a₁, i₁), f₁⟩ k₁ h₁ phase =
      some ⟨some (Address.id a₁,
        sr.sign k₁ (signingInput blake2_256
          (encodePayload i₁ f₁ (Era.mortal 256 phase) h₁)),
        i₁, Era.mortal 256 phase), f₁⟩
    ∧ sign sr blake2_256 ⟨some (a₂, i₂), f₂⟩ k₂ h₂ phase =
      some ⟨some (Address.id a₂,
        sr.sign k₂ (signingInput blake2_256
          (encodePayload i₂ f₂ (Era.mortal 256 phase) h₂)),
        i₂, Era.mortal 256 phase), f₂⟩ :=
  ⟨sign_signed_eq sr blake2_256 a₁ i₁ f₁ k₁ h₁ phase ha₁ hi₁ hph hf₁,
   sign_signed_eq sr blake2_256 a₂ i₂ f₂ k₂ h₂ phase ha₂ hi₂ hph hf₂⟩

theorem sign_era_rule_witness :
    sign constSr constBlake ⟨some (cAccount, 5), Call.timestamp_set 7⟩ cKey cHash 9 =
      some ⟨some (Address.id cAccount,
        constSr.sign cKey (signingInput constBlake
          (encodePayload 5 (Call.timestamp_set 7) (Era.mortal 256 9) cHash)),
        5, Era.mortal 256 9), Call.timestamp_set 7⟩
    ∧ sign constSr constBlake ⟨some (cDest, 11), Call.balances_transfer (Address.id cAccount) 13⟩ cKey cHash 9 =
      some ⟨some (Address.id cDest,
        constSr.sign cKey (signingInput constBlake
          (encodePayload 11 (Call.balances_transfer (Address.id cAccount) 13) (Era.mortal 256 9) cHash)),
        11, Era.mortal 256 9), Call.balances_transfer (Address.id cAccount) 13⟩ :=
  sign_era_rule constSr constBlake cAccount cDest 5 11 (Call.timestamp_set 7)
    (Call.balances_transfer (Address.id cAccount) 13) cKey cKey cHash cHash 9
    (by simp [cAccount]) (by norm_num) (by norm_num [Call.wf])
    (by simp [cDest]) (by norm_num)
    (by exact ⟨by simp [Address.wf, cAccount], by norm_num⟩) (by norm_num)

/-- Claim C3: for every wellformed input to `sign` (and hence to
`transfer_extrinsic` and `timestamp_inherent`), encoding the assembled
`UncheckedExtrinsic` and decoding the bytes with the same codec succeeds
and yields the assembled object, which is the value `sign` returns; the
decode-failure (panic) branch, `none` here, is unreachable. -/
theorem sign_roundtrip (sr : Sr25519) (blake2_256 : Bytes → Bytes)
    (xt : CheckedExtrinsic) (key : Pair) (h : Hash) (phase : Nat)
    (hxt : xt.wf) (hph : phase < 2 ^ 64) :
    decodeUnchecked (encodeUnchecked (assemble sr blake2_256 xt key h phase)) =
      some (assemble sr blake2_256 xt key h phase)
    ∧ sign sr blake2_256 xt key h phase =
      some (assemble sr blake2_256 xt key h phase) := by
  have hrt := decodeUnchecked_encodeUnchecked _
    (assemble_wf sr blake2_256 xt key h phase hxt hph)
  exact ⟨hrt, hrt⟩

theorem sign_roundtrip_witness :
    decodeUnchecked (encodeUnchecked (assemble constSr constBlake
      ⟨some (cAccount, 5), Call.timestamp_set 7⟩ cKey cHash 9)) =
      some (assemble constSr constBlake
        ⟨some (cAccount, 5), Call.timestamp_set 7⟩ cKey cHash 9)
    ∧ sign constSr constBlake ⟨some (cAccount, 5), Call.timestamp_set 7⟩ cKey cHash 9 =
      some (assemble constSr constBlake
        ⟨some (cAccount, 5), Call.timestamp_set 7⟩ cKey cHash 9) :=
  sign_roundtrip constSr constBlake ⟨some (cAccount, 5), Call.timestamp_set 7⟩
    cKey cHash 9 ⟨⟨by simp [cAccount], by norm_num⟩, by norm_num [Call.wf]⟩
    (by norm_num)

/-- Claim C4: for every timestamp, key, phase and prior block hash,
`timestamp_inherent` returns a wire object with no signature and no origin
whose call is the timestamp-set call for the supplied timestamp, whatever
the key. -/
theorem timestamp_inherent_unsigned (sr : Sr25519) (blake2_256 : Bytes → Bytes)
    (ts : Nat) (key : Pair) (phase : Nat) (h : Hash) (hts : ts < 2 ^ 64) :
    timestamp_inherent sr blake2_256 ts key phase h =
      some ⟨none, Call.timestamp_set ts⟩ :=
  sign_unsigned_eq sr blake2_256 (Call.timestamp_set ts) key h phase hts

theorem timestamp_inherent_unsigned_witness :
    timestamp_inherent constSr constBlake 123 cKey 9 cHash =
      some ⟨none, Call.timestamp_set 123⟩ :=
  timestamp_inherent_unsigned constSr constBlake 123 cKey 9 cHash (by norm_num)

/-- Claim C5: for every sender, key, destination, amount, nonce, phase and
prior block hash, `transfer_extrinsic` returns a wire object whose
signature field is `some` of (the address wrapping the sender, the
signature, the supplied nonce, the computed era) and whose call is the
transfer of the supplied amount to the supplied destination. -/
theorem transfer_extrinsic_shape (sr : Sr25519) (blake2_256 : Bytes → Bytes)
    (sender : AccountId) (key : Pair) (destination : AccountId) (amount : Nat)
    (index : Nat) (phase : Nat) (h : Hash)
    (hs : sender.length = 32) (hd : destination.length = 32)
    (ham : amount < 2 ^ 128) (hi : index < 2 ^ 64) (hph : phase < 2 ^ 64) :
    transfer_extrinsic sr blake2_256 sender key destination amount index phase h =
      some ⟨some (Address.id sender,
        sr.sign key (signingInput blake2_256
          (encodePayload index
            (Call.balances_transfer (Address.id destination) amount)
            (Era.mortal 256 phase) h)),
        index, Era.mortal 256 phase),
        Call.balances_transfer (Address.id destination) amount⟩ :=
  sign_signed_eq sr blake2_256 sender index
    (Call.balances_transfer (Address.id destination) amount) key h phase
    hs hi hph ⟨hd, ham⟩

theorem transfer_extrinsic_shape_witness :
    transfer_extrinsic constSr constBlake cAccount cKey cDest 1000 5 9 cHash =
      some ⟨some (Address.id cAccount,
        constSr.sign cKey (signingInput constBlake
          (encodePayload 5
            (Call.balances_transfer (Address.id cDest) 1000)
            (Era.mortal 256 9) cHash)),
        5, Era.mortal 256 9),
        Call.balances_transfer (Address.id cDest) 1000⟩ :=
  transfer_extrinsic_shape constSr constBlake cAccount cKey cDest 1000 5 9 cHash
    (by simp [cAccount]) (by simp [cDest]) (by norm_num) (by norm_num) (by norm_num)

/-- Filling a fixed buffer one generator draw at a time, as the
`gen_seed_bytes` loop does, never changes the buffer's length. -/
theorem foldl_set_length {σ : Type} (genU8 : σ → Nat × σ) (l : List Nat) :
    ∀ acc : Bytes × σ,
      ((l.foldl
        (fun acc i => (acc.1.set i (genU8 acc.2).1, (genU8 acc.2).2)) acc).1).length
      = acc.1.length := by
  induction l with
  | nil => intro acc; rfl
  | cons x xs ih =>
    intro acc
    rw [List.foldl_cons, ih]
    simp [List.length_set]

/-- Claim C6: the public key of the keypair returned by
`gen_random_account_secret` for a seed equals the account id returned by
`gen_random_account_id` for the same seed, for every generator and scheme. -/
theorem gen_random_account_consistent {σ : Type} (sr : Sr25519)
    (seed_from_u64 : Nat → σ) (genU8 : σ → Nat × σ) (seed : Nat) :
    (gen_random_account_secret sr seed_from_u64 genU8 seed).public =
      gen_random_account_id sr seed_from_u64 genU8 seed := rfl

/-- Claim C7: key derivation is total and never fails — `gen_seed_bytes`
draws exactly 32 bytes from the generator seeded from the u64 seed, and
keypair generation from those bytes always yields a keypair (with its
32-byte public account id), for every seed. -/
theorem gen_seed_bytes_total (sr : Sr25519) {σ : Type}
    (seed_from_u64 : Nat → σ) (genU8 : σ → Nat × σ) (seed : Nat) :
    (gen_seed_bytes seed_from_u64 genU8 seed).length = 32
    ∧ (gen_random_account_id sr seed_from_u64 genU8 seed).length = 32 := by
  constructor
  · rw [gen_seed_bytes, foldl_set_length]
    simp
  · exact sr.from_seed_public_len _

/-- Claim C8: `master_account_id` equals the public key of the keypair
returned by `master_account_secret` — both are views of the same well-known
Alice pair, mirroring the seed-derived consistency. -/
theorem master_account_consistent (alice_pair : Pair) :
    master_account_id alice_pair = (master_account_secret alice_pair).public := rfl

/-- Claim C9: the stub query points return fixed constants independent of
their arguments — `extract_index` returns 0 for every account id and block
hash, `extract_phase` returns 0 for every block hash, `minimum_balance` is
1337 and `minimum_period` is 99. -/
theorem stub_query_constants (account : AccountId) (h : Hash) :
    extract_index account h = 0 ∧ extract_phase h = 0
    ∧ minimum_balance = 1337 ∧ minimum_period = 99 :=
  ⟨rfl, rfl, rfl, rfl⟩

/-- Claim C10: the result of `timestamp_inherent` depends only on the
supplied timestamp — two invocations with the same timestamp but different
keys, phases and prior block hashes return equal wire objects. -/
theorem timestamp_inherent_depends_only_on_ts (sr : Sr25519)
    (blake2_256 : Bytes → Bytes) (ts : Nat) (k₁ k₂ : Pair)
    (phase₁ phase₂ : Nat) (h₁ h₂ : Hash) :
    timestamp_inherent sr blake2_256 ts k₁ phase₁ h₁ =
      timestamp_inherent sr blake2_256 ts k₂ phase₂ h₂ := rfl
